import Mathlib

/-!
Verification of the CanAgent core: the task-scheduling state machine
(`task_parser.py`), the record-reconciliation engine
(`conference_tracker.py._remove_duplicates`,
`research_article_parser.py._remove_duplicates`) and the date/timeframe
utilities both depend on.

Dates are modelled at day resolution: every date the code manipulates is
parsed by `strptime` to a midnight `datetime`, so both the comparison
`next_run_date <= now` and `(now - date_obj).days` (Python `timedelta.days`
floors toward minus infinity) depend only on the proleptic-Gregorian ordinal
of the calendar day, whatever the time of day of `now`.  `datetime.now()` is
therefore threaded through as an explicit day argument.
-/

namespace CanAgent

/-- A calendar date `year-month-day`, the payload of a parsed
`datetime` at midnight. -/
structure SimpleDate where
  year : Nat
  month : Nat
  day : Nat
deriving DecidableEq, Repr

/-- Gregorian leap-year rule, as used by Python's `datetime` validation. -/
def isLeapYear (y : Nat) : Bool :=
  y % 4 == 0 && (y % 100 != 0 || y % 400 == 0)

/-- Month lengths of year `y`, January first. -/
def monthDaysList (y : Nat) : List Nat :=
  [31, if isLeapYear y then 29 else 28, 31, 30, 31, 30, 31, 31, 30, 31, 30, 31]

/-- Number of days of month `m` in year `y`. -/
def daysInMonth (y m : Nat) : Nat :=
  ((monthDaysList y).drop (m - 1)).headD 31

/-- The range checks `datetime(year, month, day)` performs: constructing a
`datetime` outside them raises `ValueError`, which every caller of the
parsers catches. -/
def validDate (d : SimpleDate) : Bool :=
  1 ≤ d.year && d.year ≤ 9999 && 1 ≤ d.month && d.month ≤ 12 &&
    1 ≤ d.day && d.day ≤ daysInMonth d.year d.month

/-- Days contributed by the whole years before year `y`
(proleptic Gregorian). -/
def daysBeforeYear (y : Nat) : Nat :=
  365 * (y - 1) + (y - 1) / 4 - (y - 1) / 100 + (y - 1) / 400

/-- Days contributed by the whole months of year `y` before month `m`. -/
def daysBeforeMonth (y m : Nat) : Nat :=
  ((monthDaysList y).take (m - 1)).foldl (· + ·) 0

/-- Proleptic-Gregorian ordinal of a date, `0001-01-01` being day 1 —
exactly Python's `date.toordinal()`, so differences of ordinals are
`timedelta` day counts. -/
def toOrdinal (d : SimpleDate) : Nat :=
  daysBeforeYear d.year + daysBeforeMonth d.year d.month + d.day

/-! ## `datetime.strptime`, for the format strings the repository uses

CPython's `_strptime` compiles a format string to a regex: `%Y` is exactly
four digits, `%m` is `1[0-2]|0[1-9]|[1-9]`, `%d` is
`3[01]|[12]\d|0[1-9]|[1-9]`, `%H` is `2[0-3]|[0-1]\d|\d`, `%M` is
`[0-5]\d|\d`, `%S` is `6[0-1]|[0-5]\d|\d`, `%b` is a case-insensitive month
abbreviation, a whitespace run in the format matches one or more whitespace
characters, literal characters match case-insensitively, and the whole
input must be consumed.  The matched fields are then handed to the
`datetime` constructor, whose range validation can still reject them. -/

/-- One directive or literal of a `strptime` format string. -/
inductive FmtTok where
  | year4
  | month2
  | day2
  | monAbbr
  | hour
  | minute
  | second
  | lit (c : Char)
  | ws
deriving DecidableEq, Repr

/-- Field accumulator during format matching; `strptime` defaults the date
to 1900-01-01. -/
structure DtAcc where
  y : Nat
  m : Nat
  d : Nat
  sec : Nat
deriving DecidableEq, Repr

/-- Numeric value of a decimal digit character. -/
def charDigit (c : Char) : Nat := c.toNat - 48

/-- Value of a list of decimal digit characters. -/
def digitsVal (l : List Char) : Nat :=
  l.foldl (fun acc c => acc * 10 + charDigit c) 0

/-- Two-digit branch of the `%m` regex `1[0-2]|0[1-9]`. -/
def month2Two (c1 c2 : Char) : Option Nat :=
  if c1 = '1' && '0' ≤ c2 && c2 ≤ '2' then some (10 + charDigit c2)
  else if c1 = '0' && '1' ≤ c2 && c2 ≤ '9' then some (charDigit c2)
  else none

/-- Two-digit branch of the `%d` regex `3[01]|[12]\d|0[1-9]`. -/
def day2Two (c1 c2 : Char) : Option Nat :=
  if c1 = '3' && ('0' ≤ c2 && c2 ≤ '1') then some (30 + charDigit c2)
  else if ('1' ≤ c1 && c1 ≤ '2') && c2.isDigit then
    some (10 * charDigit c1 + charDigit c2)
  else if c1 = '0' && '1' ≤ c2 && c2 ≤ '9' then some (charDigit c2)
  else none

/-- Two-digit branch of the `%H` regex `2[0-3]|[0-1]\d`. -/
def hourTwo (c1 c2 : Char) : Option Nat :=
  if c1 = '2' && ('0' ≤ c2 && c2 ≤ '3') then some (20 + charDigit c2)
  else if ('0' ≤ c1 && c1 ≤ '1') && c2.isDigit then
    some (10 * charDigit c1 + charDigit c2)
  else none

/-- Two-digit branch of the `%M` regex `[0-5]\d`. -/
def minuteTwo (c1 c2 : Char) : Option Nat :=
  if ('0' ≤ c1 && c1 ≤ '5') && c2.isDigit then
    some (10 * charDigit c1 + charDigit c2)
  else none

/-- Two-digit branch of the `%S` regex `6[0-1]|[0-5]\d`. -/
def secondTwo (c1 c2 : Char) : Option Nat :=
  if c1 = '6' && ('0' ≤ c2 && c2 ≤ '1') then some (60 + charDigit c2)
  else if ('0' ≤ c1 && c1 ≤ '5') && c2.isDigit then
    some (10 * charDigit c1 + charDigit c2)
  else none

/-- Single nonzero digit, the `[1-9]` fallback branch of `%m` and `%d`. -/
def oneDigitNonzero (c : Char) : Option Nat :=
  if '1' ≤ c && c ≤ '9' then some (charDigit c) else none

/-- Single digit, the `\d` fallback branch of `%H`, `%M`, `%S`. -/
def oneDigitAny (c : Char) : Option Nat :=
  if c.isDigit then some (charDigit c) else none

/-- Lowercase three-letter month abbreviations, January first. -/
def monthAbbrs : List (List Char) :=
  [['j','a','n'], ['f','e','b'], ['m','a','r'], ['a','p','r'],
   ['m','a','y'], ['j','u','n'], ['j','u','l'], ['a','u','g'],
   ['s','e','p'], ['o','c','t'], ['n','o','v'], ['d','e','c']]

/-- Position search used by `monthAbbrIdx`. -/
def monthAbbrIdxAux : Nat → List (List Char) → List Char → Option Nat
  | _, [], _ => none
  | i, a :: rest, probe =>
    if a = probe then some i else monthAbbrIdxAux (i + 1) rest probe

/-- Index (1-based month number) of a three-letter abbreviation among
`monthAbbrs`, or `none`; comparison is case-insensitive. -/
def monthAbbrIdx (c1 c2 c3 : Char) : Option Nat :=
  monthAbbrIdxAux 1 monthAbbrs [c1.toLower, c2.toLower, c3.toLower]

/-- Match a token list against the input characters, with the same
alternative order and backtracking the compiled `_strptime` regex has
(every two-character alternative of a directive consumes two characters
and is followed by the same continuation, so those alternatives merge). -/
def matchToks : List FmtTok → DtAcc → List Char → Option DtAcc
  | [], acc, s => if s = [] then some acc else none
  | .year4 :: ts, acc, s =>
    match s with
    | c1 :: c2 :: c3 :: c4 :: rest =>
      if c1.isDigit && c2.isDigit && c3.isDigit && c4.isDigit then
        matchToks ts { acc with y := digitsVal [c1, c2, c3, c4] } rest
      else none
    | _ => none
  | .month2 :: ts, acc, s =>
    let two := match s with
      | c1 :: c2 :: rest =>
        match month2Two c1 c2 with
        | some v => matchToks ts { acc with m := v } rest
        | none => none
      | _ => none
    match two with
    | some r => some r
    | none =>
      match s with
      | c1 :: rest =>
        match oneDigitNonzero c1 with
        | some v => matchToks ts { acc with m := v } rest
        | none => none
      | _ => none
  | .day2 :: ts, acc, s =>
    let two := match s with
      | c1 :: c2 :: rest =>
        match day2Two c1 c2 with
        | some v => matchToks ts { acc with d := v } rest
        | none => none
      | _ => none
    match two with
    | some r => some r
    | none =>
      match s with
      | c1 :: rest =>
        match oneDigitNonzero c1 with
        | some v => matchToks ts { acc with d := v } rest
        | none => none
      | _ => none
  | .monAbbr :: ts, acc, s =>
    match s with
    | c1 :: c2 :: c3 :: rest =>
      match monthAbbrIdx c1 c2 c3 with
      | some v => matchToks ts { acc with m := v } rest
      | none => none
    | _ => none
  | .hour :: ts, acc, s =>
    let two := match s with
      | c1 :: c2 :: rest =>
        match hourTwo c1 c2 with
        | some _ => matchToks ts acc rest
        | none => none
      | _ => none
    match two with
    | some r => some r
    | none =>
      match s with
      | c1 :: rest =>
        match oneDigitAny c1 with
        | some _ => matchToks ts acc rest
        | none => none
      | _ => none
  | .minute :: ts, acc, s =>
    let two := match s with
      | c1 :: c2 :: rest =>
        match minuteTwo c1 c2 with
        | some _ => matchToks ts acc rest
        | none => none
      | _ => none
    match two with
    | some r => some r
    | none =>
      match s with
      | c1 :: rest =>
        match oneDigitAny c1 with
        | some _ => matchToks ts acc rest
        | none => none
      | _ => none
  | .second :: ts, acc, s =>
    let two := match s with
      | c1 :: c2 :: rest =>
        match secondTwo c1 c2 with
        | some v => matchToks ts { acc with sec := v } rest
        | none => none
      | _ => none
    match two with
    | some r => some r
    | none =>
      match s with
      | c1 :: rest =>
        match oneDigitAny c1 with
        | some v => matchToks ts { acc with sec := v } rest
        | none => none
      | _ => none
  | .lit c :: ts, acc, s =>
    match s with
    | c1 :: rest => if c1.toLower = c.toLower then matchToks ts acc rest else none
    | _ => none
  | .ws :: ts, acc, s =>
    match s with
    | c1 :: rest =>
      if c1.isWhitespace then matchToks ts acc (rest.dropWhile Char.isWhitespace)
      else none
    | _ => none

/-- `datetime.strptime(s, fmt)` restricted to its date part: `none` when the
regex does not match the whole input or the matched fields fail the
`datetime` constructor's validation. -/
def strptime (fmt : List FmtTok) (s : String) : Option SimpleDate :=
  match matchToks fmt ⟨1900, 1, 1, 0⟩ s.data with
  | none => none
  | some acc =>
    if acc.sec ≤ 59 && validDate ⟨acc.y, acc.m, acc.d⟩ then
      some ⟨acc.y, acc.m, acc.d⟩
    else none

/-- The format string `"%b %d, %Y"`. -/
def fmtBdY : List FmtTok :=
  [.monAbbr, .ws, .day2, .lit ',', .ws, .year4]

/-- The format string `"%d %b %Y"`. -/
def fmtDbY : List FmtTok :=
  [.day2, .ws, .monAbbr, .ws, .year4]

/-- The format string `"%Y-%m-%d"`. -/
def fmtYmd : List FmtTok :=
  [.year4, .lit '-', .month2, .lit '-', .day2]

/-- The format string `"%m/%d/%Y"`. -/
def fmtMdY : List FmtTok :=
  [.month2, .lit '/', .day2, .lit '/', .year4]

/-- The format string `"%Y-%m-%dT%H:%M:%SZ"`. -/
def fmtIsoDT : List FmtTok :=
  [.year4, .lit '-', .month2, .lit '-', .day2, .lit 'T',
   .hour, .lit ':', .minute, .lit ':', .second, .lit 'Z']

/-- First format of the list that parses the string, in order —
the `for fmt in [...]`/`continue` loop both `_parse_date` methods run. -/
def tryFormats : List (List FmtTok) → String → Option SimpleDate
  | [], _ => none
  | f :: rest, s =>
    match strptime f s with
    | some d => some d
    | none => tryFormats rest s

/-- Zero-pad a number to two digits, as `strftime` `%m`/`%d` do. -/
def pad2 (n : Nat) : String :=
  if n < 10 then "0" ++ toString n else toString n

/-- `date_obj.strftime("%Y-%m-%d")`. -/
def renderISO (d : SimpleDate) : String :=
  toString d.year ++ "-" ++ pad2 d.month ++ "-" ++ pad2 d.day

/-! ## The numeric fallback regexes of the two `_parse_date` methods -/

/-- Separator class (a slash or a hyphen) of the conference fallback regex. -/
def isSepChar (c : Char) : Bool := c = '/' || c = '-'

/-- Year group `(\d{2,4})` at the start of `s`: greedy up to four digits,
at least two; it is the last group, so nothing after it constrains it.
Returns the value and how many digits were taken (`int("20" + year)`
expansion later depends on the digit count). -/
def dmySuffix (s : List Char) : Option (Nat × Nat) :=
  let n := min (s.takeWhile Char.isDigit).length 4
  if 2 ≤ n then some (digitsVal (s.take n), n) else none

/-- After the first number of the conference fallback regex: a separator,
the second `(\d{1,2})` (two digits greedily, backtracking to one), another
separator, then the year group.  Returns `(first, second, year, ylen)`. -/
def dmyAfterFirst (a : Nat) (s : List Char) : Option (Nat × Nat × Nat × Nat) :=
  match s with
  | [] => none
  | c :: rest =>
    if isSepChar c then
      let two := match rest with
        | c1 :: c2 :: c3 :: rest3 =>
          if c1.isDigit && c2.isDigit && isSepChar c3 then
            (dmySuffix rest3).map (fun (p : Nat × Nat) => (a, digitsVal [c1, c2], p.1, p.2))
          else none
        | _ => none
      match two with
      | some r => some r
      | none =>
        match rest with
        | c1 :: c3 :: rest3 =>
          if c1.isDigit && isSepChar c3 then
            (dmySuffix rest3).map (fun (p : Nat × Nat) => (a, charDigit c1, p.1, p.2))
          else none
        | _ => none
    else none

/-- The conference fallback regex — two groups of one or two digits and a
group of two to four digits, separated by slash-or-hyphen — anchored at the current position: first group greedy with backtracking. -/
def dmyAt (s : List Char) : Option (Nat × Nat × Nat × Nat) :=
  let two := match s with
    | c1 :: c2 :: rest =>
      if c1.isDigit && c2.isDigit then dmyAfterFirst (digitsVal [c1, c2]) rest
      else none
    | _ => none
  match two with
  | some r => some r
  | none =>
    match s with
    | c1 :: rest => if c1.isDigit then dmyAfterFirst (charDigit c1) rest else none
    | [] => none

/-- `re.search` of the conference fallback regex: leftmost position where
the pattern matches. -/
def searchDMY : List Char → Option (Nat × Nat × Nat × Nat)
  | [] => none
  | c :: rest =>
    match dmyAt (c :: rest) with
    | some r => some r
    | none => searchDMY rest

/-- Word character of the regex `\b` boundary (`[A-Za-z0-9_]` on the ASCII
inputs at stake). -/
def isWordChar (c : Char) : Bool := c.isAlphanum || c = '_'

/-- The article fallback regex `\b(19|20)\d{2}\b` anchored at the current
position, `prev` being the character just before it. -/
def yearAt (prev : Option Char) (s : List Char) : Option Nat :=
  match s with
  | c1 :: c2 :: c3 :: c4 :: rest =>
    if ((c1 = '1' && c2 = '9') || (c1 = '2' && c2 = '0'))
        && c3.isDigit && c4.isDigit
        && (match prev with | some p => !isWordChar p | none => true)
        && (match rest with | r :: _ => !isWordChar r | [] => true) then
      some (digitsVal [c1, c2, c3, c4])
    else none
  | _ => none

/-- Scan for `yearAt`, tracking the previous character for `\b`. -/
def searchYearAux (prev : Option Char) : List Char → Option Nat
  | [] => none
  | c :: rest =>
    match yearAt prev (c :: rest) with
    | some y => some y
    | none => searchYearAux (some c) rest

/-- `re.search(r'\b(19|20)\d{2}\b', s)`: the matched four-digit year. -/
def searchYear (s : List Char) : Option Nat := searchYearAux none s

/-! ## The two `_parse_date` methods -/

/-- `ConferenceTracker._parse_date`: empty input short-circuits to `None`;
the literal formats `"%b %d, %Y"`, `"%d %b %Y"`, `"%Y-%m-%d"`, `"%m/%d/%Y"`
are tried in order; on failure the numeric day/month/year regex is searched, a
two-digit year becoming `int("20" + year)`; a match failing the `datetime`
range checks is swallowed by the surrounding `except` into `None`. -/
def confParseDate (s : String) : Option String :=
  if s = "" then none
  else
    match tryFormats [fmtBdY, fmtDbY, fmtYmd, fmtMdY] s with
    | some d => some (renderISO d)
    | none =>
      match searchDMY s.data with
      | some (day, month, yraw, ylen) =>
        let year := if ylen = 2 then 2000 + yraw else yraw
        if validDate ⟨year, month, day⟩ then some (renderISO ⟨year, month, day⟩)
        else none
      | none => none

/-- `ResearchArticleParser._parse_date`: empty input short-circuits to
`None`; the literal formats `"%Y-%m-%dT%H:%M:%SZ"`, `"%Y-%m-%d"`,
`"%b %d, %Y"`, `"%d %b %Y"`, `"%m/%d/%Y"` are tried in order; on failure a
standalone `19xx`/`20xx` year is searched for and rendered as
`f"{year}-01-01"`. -/
def artParseDate (s : String) : Option String :=
  if s = "" then none
  else
    match tryFormats [fmtIsoDT, fmtYmd, fmtBdY, fmtDbY, fmtMdY] s with
    | some d => some (renderISO d)
    | none =>
      match searchYear s.data with
      | some year => some (toString year ++ "-01-01")
      | none => none

/-- Modelled from the spec (§4.1): a date parser that "attempts an ordered
list of known literal formats (`"Mon D, YYYY"`, `"D Mon YYYY"`,
`"YYYY-MM-DD"`, `"M/D/YYYY"`); on failure attempts a numeric day-month-year
regex extraction (slash or hyphen separated) where a 2-digit year is expanded to `20YY`; returns `None`
if every strategy fails".  Stated for refinement comparison with the two
parsers in the source. -/
def specParseDate (s : String) : Option String :=
  if s = "" then none
  else
    match tryFormats [fmtBdY, fmtDbY, fmtYmd, fmtMdY] s with
    | some d => some (renderISO d)
    | none =>
      match searchDMY s.data with
      | some (day, month, yraw, ylen) =>
        let year := if ylen = 2 then 2000 + yraw else yraw
        if validDate ⟨year, month, day⟩ then some (renderISO ⟨year, month, day⟩)
        else none
      | none => none

/-! ## `ResearchArticleParser._is_in_timeframe` -/

/-- `ResearchArticleParser._is_in_timeframe(date_str, timeframe)`.  A falsy
`date_str` (absent or empty) yields `False`; a `strptime` failure is caught
by the surrounding `except` into `False`; otherwise `recent` compares
`(now - date_obj).days <= 30` — at day resolution the difference of
ordinals, an `Int`, since the parsed date sits at midnight and
`timedelta.days` floors — `this_month`/`this_year` compare calendar fields,
and any other label (the `all` timeframe) yields `True`. -/
def artIsInTimeframe (now : SimpleDate) (dateStr : Option String)
    (timeframe : String) : Bool :=
  match dateStr with
  | none => false
  | some s =>
    if s = "" then false
    else
      match strptime fmtYmd s with
      | none => false
      | some d =>
        if timeframe = "recent" then
          decide ((toOrdinal now : Int) - (toOrdinal d : Int) ≤ 30)
        else if timeframe = "this_month" then
          d.year == now.year && d.month == now.month
        else if timeframe = "this_year" then
          d.year == now.year
        else true

/-! ## Tasks: `TaskParser` / `TaskScheduler` -/

/-- A parsed task, the dictionary `TaskParser.parse_todo_item` builds.
`parameters` is the string-keyed parameter map; its values play no role in
scheduling. -/
structure Task where
  id : Option String
  name : String
  taskType : String
  parameters : List (String × String)
  status : String
  last_run : Option String
  next_run : Option String
  frequency : String
  result_page : Option String
deriving DecidableEq, Repr

/-- Python's `str.lower()` on the ASCII names at stake: lowercase each
character.  (Defined over the character list so kernel evaluation is
direct.) -/
def lowerStr (s : String) : String := ⟨s.data.map Char.toLower⟩

/-- The fixed ordered `task_types` table of `TaskParser.__init__`. -/
def taskTypes : List (String × List String) :=
  [("conference", ["conference", "conf", "event", "workshop", "symposium"]),
   ("research", ["research", "article", "paper", "publication", "study"]),
   ("project", ["project", "milestone", "development", "progress"]),
   ("stakeholder", ["stakeholder", "contact", "follow-up", "meeting", "client"])]

/-- `needle` occurs as a contiguous substring of `hay`
(Python's `needle in hay`). -/
def containsSub (hay needle : List Char) : Bool :=
  match hay with
  | [] => needle.isEmpty
  | _ :: t => needle.isPrefixOf hay || containsSub t needle

/-- The nested `for task_type ... for keyword ...` loop of
`_infer_task_type`: first kind of the table one of whose keywords occurs in
the lowercased name. -/
def inferTaskTypeAux (lower : String) : List (String × List String) → String
  | [] => "unknown"
  | (kind, keywords) :: rest =>
    if keywords.any (fun kw => containsSub lower.data kw.data) then kind
    else inferTaskTypeAux lower rest

/-- `TaskParser._infer_task_type`: a falsy (empty) name yields `"unknown"`,
otherwise the first matching kind of the ordered table, else `"unknown"`. -/
def inferTaskType (taskName : String) : String :=
  if taskName = "" then "unknown"
  else inferTaskTypeAux (lowerStr taskName) taskTypes

/-- The per-task body of `TaskScheduler.get_due_tasks`: skip `Complete`
tasks; a falsy `next_run` (absent or empty) is due; otherwise parse with
`"%Y-%m-%d"` and compare to `now` (day resolution: the parsed date is at
midnight, so `next_run_date <= now` holds iff its ordinal is at most
`now`'s); a parse failure is caught and the task considered due. -/
def isDueTask (now : SimpleDate) (task : Task) : Bool :=
  if task.status = "Complete" then false
  else
    match task.next_run with
    | none => true
    | some s =>
      if s = "" then true
      else
        match strptime fmtYmd s with
        | some d => decide (toOrdinal d ≤ toOrdinal now)
        | none => true

/-- `TaskScheduler.get_due_tasks`: the loop appends exactly the tasks whose
body reaches an `append`, i.e. filters by `isDueTask`. -/
def getDueTasks (tasks : List Task) (now : SimpleDate) : List Task :=
  tasks.filter (isDueTask now)

/-- The `next_run` computation of `TaskScheduler.update_task_status`, at day
resolution (ordinals; `now + timedelta(days=k)` shifts the ordinal by `k`,
and `timedelta(weeks=1)` is seven days).  A frequency outside the offset
table — in particular `Once` — leaves `next_run = None` even when the
recurrence branch is entered. -/
def computeNextRun (frequency status : String) (now : Nat) : Option Nat :=
  if status ≠ "Complete" ∨ frequency ≠ "Once" then
    if frequency = "Daily" then some (now + 1)
    else if frequency = "Weekly" then some (now + 7)
    else if frequency = "Monthly" then some (now + 30)
    else if frequency = "Quarterly" then some (now + 90)
    else if frequency = "Yearly" then some (now + 365)
    else none
  else none

/-- Payload of one Notion property write built by `update_task_status`;
date payloads are at day resolution (`strftime("%Y-%m-%d")` renders the
calendar day). -/
inductive PropValue where
  | select (name : String)
  | date (startDay : Nat)
  | relation (ids : List String)
deriving DecidableEq, Repr

/-- The `properties` dictionary `TaskScheduler.update_task_status` passes to
`update_page`, given the (already parsed) task, the new status, the optional
`result_page_id` argument and the current day.  `Status` and `Last Run` are
always written; `Next Run` only under `if next_run:` (a computed `datetime`
is always truthy); `Result Page` only under `if result_page_id:` (truthy:
present and non-empty). -/
def updateTaskStatusProps (task : Task) (status : String)
    (resultPageId : Option String) (now : Nat) : List (String × PropValue) :=
  let nextRun := computeNextRun task.frequency status now
  [("Status", PropValue.select status), ("Last Run", PropValue.date now)]
    ++ (match nextRun with
        | some d => [("Next Run", PropValue.date d)]
        | none => [])
    ++ (match resultPageId with
        | some rid => if rid ≠ "" then [("Result Page", PropValue.relation [rid])] else []
        | none => [])

/-! ## Records and `_remove_duplicates` -/

/-- A conference dictionary as built by the three `_search_*` methods of
`ConferenceTracker`: `name`, `url`, `location` and `source` are always
strings (possibly empty), `start_date`, `end_date` and
`submission_deadline` are `_parse_date` results and may be `None`,
`topics` is a list. -/
structure Conference where
  name : String
  url : String
  start_date : Option String
  end_date : Option String
  location : String
  submission_deadline : Option String
  source : String
  topics : List String
deriving DecidableEq, Repr

/-- An article dictionary as built by the two `_search_*` methods of
`ResearchArticleParser`: `summary` and `publication` can be `None` when the
upstream JSON holds an explicit null, `publication_date` is a parse result,
`authors` and `topics` are lists. -/
structure Article where
  title : String
  url : String
  authors : List String
  publication_date : Option String
  summary : Option String
  source : String
  topics : List String
  publication : Option String
deriving DecidableEq, Repr

/-- The deduplication key
`f"{conf['name']}_{conf.get('start_date', '')}"`: the key `start_date` is
always present in the dictionary, so `.get` returns its value even when
that is `None`, which the f-string renders as the string `"None"`. -/
def confKey (c : Conference) : String :=
  c.name ++ "_" ++ (match c.start_date with | none => "None" | some s => s)

/-- Count of values `v` of the conference dictionary with `v is not None`:
the four plain strings and the topics list always count, empty or not. -/
def confCompleteness (c : Conference) : Nat :=
  1 + 1 + (match c.start_date with | none => 0 | some _ => 1)
    + (match c.end_date with | none => 0 | some _ => 1)
    + 1 + (match c.submission_deadline with | none => 0 | some _ => 1)
    + 1 + 1

/-- `ConferenceTracker._is_more_complete`: strictly more non-`None`
values. -/
def confIsMoreComplete (c1 c2 : Conference) : Bool :=
  confCompleteness c1 > confCompleteness c2

/-- 1 when the string is non-empty (`v is not None and v != ""` for a
string value). -/
def strCount (s : String) : Nat := if s = "" then 0 else 1

/-- 1 when the optional string is present and non-empty. -/
def optStrCount (o : Option String) : Nat :=
  match o with | none => 0 | some s => strCount s

/-- Count of values `v` of the article dictionary with
`v is not None and v != ""`: the `authors` and `topics` lists always count
(a list is never equal to `""`), hence the two `1`s. -/
def artCompleteness (a : Article) : Nat :=
  strCount a.title + strCount a.url + 1 + optStrCount a.publication_date
    + optStrCount a.summary + strCount a.source + 1 + optStrCount a.publication

/-- `article.get("summary") is not None and article.get("summary") != ""`. -/
def hasSummary (a : Article) : Bool :=
  match a.summary with | none => false | some s => s ≠ ""

/-- `ResearchArticleParser._is_more_complete`: a present non-empty summary
on exactly one side decides; otherwise strictly more non-`None`, non-empty
values. -/
def artIsMoreComplete (a1 a2 : Article) : Bool :=
  if hasSummary a1 && !hasSummary a2 then true
  else if !hasSummary a1 && hasSummary a2 then false
  else artCompleteness a1 > artCompleteness a2

/-- Value stored under key `k` of the insertion-ordered dictionary,
modelled as an association list. -/
def lookupKey {α : Type} (acc : List (String × α)) (k : String) : Option α :=
  (acc.find? (fun p => p.1 = k)).map Prod.snd

/-- Overwrite the value stored under key `k`: a Python dictionary keeps the
key's original position on assignment to an existing key. -/
def setKey {α : Type} (acc : List (String × α)) (k : String) (v : α) :
    List (String × α) :=
  acc.map (fun p => if p.1 = k then (k, v) else p)

/-- Union of two topic lists.  Python builds
`list(set(existing).union(set(new)))`, whose element order is unspecified;
the model fixes left-to-right order of first appearance and every claim
about topics is read up to set membership. -/
def unionTopics (existing newTopics : List String) : List String :=
  existing ++ newTopics.filter (fun t => !existing.contains t)

/-- Loop body of `ConferenceTracker._remove_duplicates`: a new key is
appended; an existing key is overwritten when the incoming conference is
strictly more complete (its own topics replacing the stored ones), and
otherwise keeps the stored representative with the topic union. -/
def insertConference (acc : List (String × Conference)) (conf : Conference) :
    List (String × Conference) :=
  let key := confKey conf
  match lookupKey acc key with
  | none => acc ++ [(key, conf)]
  | some existing =>
    if confIsMoreComplete conf existing then setKey acc key conf
    else setKey acc key { existing with topics := unionTopics existing.topics conf.topics }

/-- `ConferenceTracker._remove_duplicates`: fold the loop body over the
input and return `list(unique_conferences.values())` in insertion order. -/
def removeDuplicatesConf (conferences : List Conference) : List Conference :=
  (conferences.foldl insertConference []).map Prod.snd

/-- Loop body of `ResearchArticleParser._remove_duplicates`: the key is the
lowercased title; an article with empty (falsy) lowercased title is skipped
outright; otherwise as for conferences with `_is_more_complete` of
articles. -/
def insertArticle (acc : List (String × Article)) (article : Article) :
    List (String × Article) :=
  let title := lowerStr article.title
  if title = "" then acc
  else
    match lookupKey acc title with
    | none => acc ++ [(title, article)]
    | some existing =>
      if artIsMoreComplete article existing then setKey acc title article
      else setKey acc title { existing with topics := unionTopics existing.topics article.topics }

/-- `ResearchArticleParser._remove_duplicates`. -/
def removeDuplicatesArt (articles : List Article) : List Article :=
  (articles.foldl insertArticle []).map Prod.snd

/-- Modelled from the spec (§4.4, glossary): the "completeness score —
count of attributes with a non-null, non-empty value" applied to a
conference record, a list attribute counting when non-empty.  Stated for
comparison with `confCompleteness`, which the source computes with a bare
`is not None` test. -/
def specCompletenessConf (c : Conference) : Nat :=
  strCount c.name + strCount c.url + optStrCount c.start_date
    + optStrCount c.end_date + strCount c.location
    + optStrCount c.submission_deadline + strCount c.source
    + (if c.topics.isEmpty then 0 else 1)

/-! ## Invariants of the deduplication dictionaries and concrete records -/

/-- State invariant of the conference dictionary: keys are pairwise
distinct and each key is the `confKey` of its stored record. -/
def ConfInv (acc : List (String × Conference)) : Prop :=
  (acc.map Prod.fst).Nodup ∧ ∀ p ∈ acc, p.1 = confKey p.2

/-- State invariant of the article dictionary: keys are pairwise distinct
and each key is the non-empty lowercased title of its stored record. -/
def ArtInv (acc : List (String × Article)) : Prop :=
  (acc.map Prod.fst).Nodup ∧ ∀ p ∈ acc, p.1 = lowerStr p.2.title ∧ p.1 ≠ ""

/-- Sparse record: same name and (absent) start date as `confTopicsB`,
topic `"A"` only. -/
def confTopicsA : Conference :=
  ⟨"GameAI Summit", "", none, none, "", none, "", ["A"]⟩

/-- Same dedup key as `confTopicsA` but strictly more populated (it has a
submission deadline), topic `"B"` only. -/
def confTopicsB : Conference :=
  ⟨"GameAI Summit", "", none, none, "", some "2025-01-10", "", ["B"]⟩

/-- A conference whose name differs from `confCaseB`'s only in case. -/
def confCaseA : Conference :=
  ⟨"NeurIPS", "u", some "2025-12-02", none, "", none, "WikiCFP", ["AI"]⟩

/-- A conference whose name differs from `confCaseA`'s only in case. -/
def confCaseB : Conference :=
  ⟨"NEURIPS", "u", some "2025-12-02", none, "", none, "Conference Alerts", ["ML"]⟩

/-- An article sharing its title with `artDateB` but dated a year later. -/
def artDateA : Article :=
  ⟨"Deep RL for Games", "u1", [], some "2024-01-01", none, "arXiv", ["RL"], none⟩

/-- An article sharing its title with `artDateA` but dated a year earlier. -/
def artDateB : Article :=
  ⟨"Deep RL for Games", "u2", [], some "2023-01-01", none, "arXiv", ["RL"], none⟩

/-- Identical to `confNoDeadline` except for an empty-string submission
deadline, which only the source's bare `is not None` count rewards. -/
def confEmptyDeadline : Conference :=
  ⟨"GDC", "", none, none, "", some "", "", []⟩

/-- Identical to `confEmptyDeadline` except the deadline is absent. -/
def confNoDeadline : Conference :=
  ⟨"GDC", "", none, none, "", none, "", []⟩

/-- A one-shot task, as parsed from a row with no explicit frequency. -/
def onceTask : Task :=
  ⟨some "task-1", "One shot", "unknown", [], "Not Started", none, none, "Once", none⟩

/-- An article with a summary and few other fields, same title as
`artNoSummary`. -/
def artWithSummary : Article :=
  ⟨"Alpha Results", "", [], none, some "an abstract", "", ["A"], none⟩

/-- An article without a summary but with more populated fields than
`artWithSummary`, same title. -/
def artNoSummary : Article :=
  ⟨"Alpha Results", "u", ["x", "y"], some "2024-01-01", none, "SS", ["B"], some "venue"⟩

/-! ## Theorems -/

/-- The empty string parses under no format (the first directive of each
format needs at least one character). -/
theorem strptime_fmtYmd_empty : strptime fmtYmd "" = none := rfl

/-- C3 counterexample: a `Once` task transitioned to `Error` gets no
computed `next_run` — the recurrence branch is entered but the offset chain
has no `Once` arm, so `next_run` stays `None` and no `Next Run` property is
written, while the claim promises a value from the offset table. -/
theorem once_error_next_run_counterexample :
    computeNextRun "Once" "Error" 739617 = none
      ∧ (updateTaskStatusProps onceTask "Error" none 739617).map Prod.fst
          = ["Status", "Last Run"] := by
  constructor
  · rfl
  · rfl

/-- C3 (amended): for `Once`, both a `Complete` and an `Error` transition
yield `next_run = None`; a `next_run` is computed exactly when the
recurrence condition `new_status ≠ Complete ∨ frequency ≠ Once` holds and
the frequency is one of the five table entries, with the fixed offsets
+1, +7, +30, +90, +365 days. -/
theorem recurrence_computation_amended (freq status : String) (now : Nat) :
    computeNextRun "Once" "Complete" now = none
      ∧ computeNextRun "Once" "Error" now = none
      ∧ ((computeNextRun freq status now).isSome = true ↔
          ((status ≠ "Complete" ∨ freq ≠ "Once")
            ∧ freq ∈ (["Daily", "Weekly", "Monthly", "Quarterly", "Yearly"] : List String)))
      ∧ computeNextRun "Daily" status now = some (now + 1)
      ∧ computeNextRun "Weekly" status now = some (now + 7)
      ∧ computeNextRun "Monthly" status now = some (now + 30)
      ∧ computeNextRun "Quarterly" status now = some (now + 90)
      ∧ computeNextRun "Yearly" status now = some (now + 365) := by
  refine ⟨by simp [computeNextRun], by simp [computeNextRun], ?_, ?_, ?_, ?_, ?_, ?_⟩
  · by_cases h : status ≠ "Complete" ∨ freq ≠ "Once"
    · simp only [computeNextRun, if_pos h]
      split_ifs with h1 h2 h3 h4 h5 <;> simp_all
    · simp only [computeNextRun, if_neg h]
      push_neg at h
      simp [h.1, h.2]
  all_goals simp [computeNextRun]

/-- C4 counterexample: a date one hundred days in the future of `now`
satisfies the `recent` timeframe — the code's `(now - date).days <= 30`
holds for every future date since the delta is negative — while the claim
requires `false` for every strictly future date. -/
theorem recent_future_date_counterexample :
    artIsInTimeframe ⟨2026, 1, 1⟩ (some "2026-04-11") "recent" = true
      ∧ toOrdinal ⟨2026, 1, 1⟩ < toOrdinal ⟨2026, 4, 11⟩ := by
  constructor
  · rfl
  · decide

/-- C4 (amended): `recent` is `false` for an absent date and for an
unparsable one; for a parsed date it holds iff `now`'s ordinal minus the
date's is at most 30 — a condition every past-or-present date within 30
days satisfies, but also every future date, the day difference then being
negative. -/
theorem recent_timeframe_amended (now : SimpleDate) (s : String) (d : SimpleDate) :
    artIsInTimeframe now none "recent" = false
      ∧ (strptime fmtYmd s = none → artIsInTimeframe now (some s) "recent" = false)
      ∧ (strptime fmtYmd s = some d →
          (artIsInTimeframe now (some s) "recent" = true ↔
            (toOrdinal now : Int) - (toOrdinal d : Int) ≤ 30))
      ∧ (strptime fmtYmd s = some d → toOrdinal now ≤ toOrdinal d →
          artIsInTimeframe now (some s) "recent" = true) := by
  refine ⟨rfl, ?_, ?_, ?_⟩
  · intro hp
    by_cases hs : s = ""
    · simp [artIsInTimeframe, hs]
    · simp [artIsInTimeframe, hs, hp]
  · intro hp
    have hs : s ≠ "" := by
      intro hs
      rw [hs, strptime_fmtYmd_empty] at hp
      exact Option.noConfusion hp
    simp [artIsInTimeframe, hs, hp]
  · intro hp hle
    have hs : s ≠ "" := by
      intro hs
      rw [hs, strptime_fmtYmd_empty] at hp
      exact Option.noConfusion hp
    simp only [artIsInTimeframe, hs, hp, if_neg, reduceIte, decide_eq_true_eq]
    omega

/-- C4 witness: with `now = 2026-01-01`, the string `"2026-04-11"` parses
to a strictly later date, and the amended theorem yields `recent = true`
for it. -/
theorem recent_timeframe_amended_witness :
    artIsInTimeframe ⟨2026, 1, 1⟩ (some "2026-04-11") "recent" = true :=
  (recent_timeframe_amended ⟨2026, 1, 1⟩ "2026-04-11" ⟨2026, 4, 11⟩).2.2.2
    (by decide) (by decide)

/-- C8 counterexample: on `"Published in 2023"` the spec-modelled strategy
(four literal formats, then the numeric day-month-year regex) yields
`None`, but the article parser returns `2023-01-01` via its year-extraction
fallback — so the claimed strategy does not hold for the article parser. -/
theorem parse_date_strategy_counterexample :
    artParseDate "Published in 2023" = some "2023-01-01"
      ∧ specParseDate "Published in 2023" = none := by
  constructor
  · rfl
  · rfl

/-- C8 (amended): the conference date parser follows the spec's strategy
exactly (ordered literal formats `"%b %d, %Y"`, `"%d %b %Y"`, `"%Y-%m-%d"`,
`"%m/%d/%Y"`, then the numeric day-month-year regex with `20YY` expansion,
`None` on total failure); the article parser instead puts the ISO-datetime
and ISO-date formats first and falls back to extracting a standalone
`19xx`/`20xx` year rendered as January 1st.  Demonstrated on one input per
strategy, including the divergence input `"5/3/24"`. -/
theorem parse_date_amended :
    (∀ s, confParseDate s = specParseDate s)
      ∧ confParseDate "Mar 5, 2024" = some "2024-03-05"
      ∧ confParseDate "5 Mar 2024" = some "2024-03-05"
      ∧ confParseDate "2024-03-05" = some "2024-03-05"
      ∧ confParseDate "03/05/2024" = some "2024-03-05"
      ∧ confParseDate "05/03/2024" = some "2024-05-03"
      ∧ confParseDate "5/3/24" = some "2024-03-05"
      ∧ confParseDate "who knows" = none
      ∧ artParseDate "2024-03-05T12:34:56Z" = some "2024-03-05"
      ∧ artParseDate "Published in 2023" = some "2023-01-01"
      ∧ artParseDate "5/3/24" = none
      ∧ artParseDate "no date here" = none :=
  ⟨fun _ => rfl, rfl, rfl, rfl, rfl, rfl, rfl, rfl, rfl, rfl, rfl, rfl⟩

/-- The nested keyword loop equals a first-match search over the table. -/
theorem inferTaskTypeAux_eq_find (lower : String) :
    ∀ tbl : List (String × List String),
      inferTaskTypeAux lower tbl =
        ((tbl.find? (fun p => p.2.any (fun kw => containsSub lower.data kw.data))).map
            Prod.fst).getD "unknown" := by
  intro tbl
  induction tbl with
  | nil => rfl
  | cons hd tl ih =>
    cases hd with
    | mk k kws =>
      rw [List.find?_cons]
      by_cases h : kws.any (fun kw => containsSub lower.data kw.data)
      · simp [inferTaskTypeAux, h]
      · simp [inferTaskTypeAux, h, ih]

/-- C9: `classify` returns the first kind of the fixed ordered table
(conference, research, project, stakeholder) one of whose keywords is a
case-insensitive substring of the name, and `"unknown"` when none matches;
in particular on the three example names. -/
theorem classify_first_match :
    (∀ name : String,
        inferTaskType name =
          ((taskTypes.find? (fun p =>
              p.2.any (fun kw => containsSub (lowerStr name).data kw.data))).map
            Prod.fst).getD "unknown")
      ∧ inferTaskType "Track AI conferences" = "conference"
      ∧ inferTaskType "Find research on game AI" = "research"
      ∧ inferTaskType "Quarterly budget review" = "unknown" := by
  refine ⟨?_, rfl, rfl, rfl⟩
  intro name
  by_cases h : name = ""
  · subst h
    rfl
  · rw [inferTaskType, if_neg h]
    exact inferTaskTypeAux_eq_find (lowerStr name) taskTypes

/-- C10: one `update_task_status` call writes exactly `Status` and
`Last Run`, plus `Next Run` exactly when a recurrence offset was computed
and `Result Page` exactly when a non-empty `result_page_id` was supplied;
no other property is written, so every other stored field — a pre-existing
`Next Run` (e.g. of a `Once` task marked `Complete`, for which no offset is
computed) or a stored result relation — is left untouched. -/
theorem update_writes_exact_fields (task : Task) (status : String)
    (resultPageId : Option String) (now : Nat) :
    (updateTaskStatusProps task status resultPageId now).map Prod.fst
        = ["Status", "Last Run"]
          ++ (if (computeNextRun task.frequency status now).isSome then ["Next Run"] else [])
          ++ (if resultPageId.getD "" ≠ "" then ["Result Page"] else [])
      ∧ computeNextRun "Once" "Complete" now = none := by
  constructor
  · simp only [updateTaskStatusProps, List.map_append]
    cases h : computeNextRun task.frequency status now with
    | none =>
      cases resultPageId with
      | none => simp
      | some rid => by_cases hr : rid = "" <;> simp [hr]
    | some d =>
      cases resultPageId with
      | none => simp
      | some rid => by_cases hr : rid = "" <;> simp [hr]
  · simp [computeNextRun]

/-- The loop body of `get_due_tasks` holds exactly on the claim's
disjunction: `next_run` absent (or empty, which no format parses), or
unparsable, or parsed and at most `now`. -/
theorem isDueTask_iff (now : SimpleDate) (t : Task) :
    isDueTask now t = true ↔
      t.status ≠ "Complete"
        ∧ (t.next_run = none
            ∨ (∃ s, t.next_run = some s ∧ strptime fmtYmd s = none)
            ∨ (∃ s d, t.next_run = some s ∧ strptime fmtYmd s = some d
                ∧ toOrdinal d ≤ toOrdinal now)) := by
  by_cases hst : t.status = "Complete"
  · simp [isDueTask, hst]
  · cases hnr : t.next_run with
    | none => simp [isDueTask, hst, hnr]
    | some s =>
      by_cases hs : s = ""
      · subst hs
        simp [isDueTask, hst, hnr, strptime_fmtYmd_empty]
      · cases hp : strptime fmtYmd s with
        | none => simp [isDueTask, hst, hnr, hs, hp]
        | some d => simp [isDueTask, hst, hnr, hs, hp]

/-- C5: `get_due_tasks` keeps exactly the input tasks that are not
`Complete` and whose `next_run` is absent, fails to parse (fail-open), or
parses to a day at most `now`. -/
theorem select_due_fail_open (tasks : List Task) (now : SimpleDate) (t : Task) :
    t ∈ getDueTasks tasks now ↔
      t ∈ tasks
        ∧ t.status ≠ "Complete"
        ∧ (t.next_run = none
            ∨ (∃ s, t.next_run = some s ∧ strptime fmtYmd s = none)
            ∨ (∃ s d, t.next_run = some s ∧ strptime fmtYmd s = some d
                ∧ toOrdinal d ≤ toOrdinal now)) := by
  rw [getDueTasks, List.mem_filter, isDueTask_iff]

/-! ## Dictionary lemmas for the deduplication loops -/

/-- A key is absent iff no stored pair carries it. -/
theorem lookupKey_eq_none {α : Type} (acc : List (String × α)) (k : String) :
    lookupKey acc k = none ↔ ∀ p ∈ acc, p.1 ≠ k := by
  simp [lookupKey, List.find?_eq_none]

/-- A successful lookup exhibits a stored pair with that key. -/
theorem lookupKey_some {α : Type} {acc : List (String × α)} {k : String} {v : α}
    (h : lookupKey acc k = some v) : (k, v) ∈ acc := by
  unfold lookupKey at h
  cases hf : acc.find? (fun p => p.1 = k) with
  | none => rw [hf] at h; exact Option.noConfusion h
  | some q =>
    rw [hf] at h
    have hq := List.find?_some hf
    have hmem := List.mem_of_find?_eq_some hf
    simp at h
    simp only [decide_eq_true_eq] at hq
    have : (k, v) = q := by
      cases q with
      | mk qk qv => simp_all
    rw [this]
    exact hmem

/-- Overwriting a value leaves the key sequence unchanged. -/
theorem setKey_map_fst {α : Type} (acc : List (String × α)) (k : String) (v : α) :
    (setKey acc k v).map Prod.fst = acc.map Prod.fst := by
  induction acc with
  | nil => rfl
  | cons p t ih =>
    by_cases h : p.1 = k
    · simpa [setKey, h] using ih
    · simpa [setKey, h] using ih

/-- `insertConference` on a fresh key appends the pair. -/
theorem insertConference_eq_append {acc : List (String × Conference)} {c : Conference}
    (hl : lookupKey acc (confKey c) = none) :
    insertConference acc c = acc ++ [(confKey c, c)] := by
  simp [insertConference, hl]

/-- `insertConference` on an existing key overwrites in place. -/
theorem insertConference_eq_set {acc : List (String × Conference)} {c e : Conference}
    (hl : lookupKey acc (confKey c) = some e) :
    insertConference acc c =
      if confIsMoreComplete c e then setKey acc (confKey c) c
      else setKey acc (confKey c)
        { e with topics := unionTopics e.topics c.topics } := by
  simp [insertConference, hl]

/-- The loop body preserves the conference dictionary invariant. -/
theorem insertConference_inv {acc : List (String × Conference)} (h : ConfInv acc)
    (c : Conference) : ConfInv (insertConference acc c) := by
  cases hl : lookupKey acc (confKey c) with
  | none =>
    rw [insertConference_eq_append hl]
    constructor
    · rw [List.map_append, List.map_cons, List.map_nil]
      refine List.Nodup.append h.1 (List.nodup_singleton _) ?_
      intro a ha hb
      simp only [List.mem_singleton] at hb
      subst hb
      obtain ⟨p, hp, hpk⟩ := List.mem_map.mp ha
      exact ((lookupKey_eq_none acc (confKey c)).mp hl) p hp hpk
    · intro p hp
      rcases List.mem_append.mp hp with h1 | h2
      · exact h.2 p h1
      · simp only [List.mem_singleton] at h2
        subst h2
        rfl
  | some e =>
    have hkey : confKey c = confKey e := h.2 _ (lookupKey_some hl)
    rw [insertConference_eq_set hl]
    have hset : ∀ v : Conference, confKey v = confKey c →
        ConfInv (setKey acc (confKey c) v) := by
      intro v hv
      constructor
      · rw [setKey_map_fst]; exact h.1
      · intro p hp
        obtain ⟨q, hq, hfq⟩ := List.mem_map.mp hp
        by_cases hq1 : q.1 = confKey c
        · rw [if_pos hq1] at hfq
          rw [← hfq, hv]
        · rw [if_neg hq1] at hfq
          rw [← hfq]
          exact h.2 q hq
    split_ifs with hmc
    · exact hset c rfl
    · exact hset _ hkey.symm

/-- The dictionary built by the fold satisfies the invariant. -/
theorem foldl_insertConference_inv (l : List Conference) :
    ∀ acc, ConfInv acc → ConfInv (l.foldl insertConference acc) := by
  induction l with
  | nil => exact fun _ h => h
  | cons c t ih => exact fun acc h => ih _ (insertConference_inv h c)

/-- Inserting one conference adds exactly its key to the key set. -/
theorem fst_mem_insertConference {acc : List (String × Conference)} {c : Conference}
    {k : String} :
    k ∈ (insertConference acc c).map Prod.fst ↔
      k ∈ acc.map Prod.fst ∨ k = confKey c := by
  cases hl : lookupKey acc (confKey c) with
  | none =>
    rw [insertConference_eq_append hl]
    simp
  | some e =>
    have hmem : confKey c ∈ acc.map Prod.fst :=
      List.mem_map.mpr ⟨_, lookupKey_some hl, rfl⟩
    rw [insertConference_eq_set hl]
    split_ifs with hmc <;>
      · rw [setKey_map_fst]
        exact ⟨Or.inl, fun h => h.elim id (fun hk => hk ▸ hmem)⟩

/-- The key set of the fold is the initial key set plus all input keys. -/
theorem fst_mem_foldl_insertConference (l : List Conference) :
    ∀ (acc : List (String × Conference)) (k : String),
      k ∈ (l.foldl insertConference acc).map Prod.fst ↔
        k ∈ acc.map Prod.fst ∨ k ∈ l.map confKey := by
  induction l with
  | nil => simp
  | cons c t ih =>
    intro acc k
    rw [List.foldl_cons, ih, fst_mem_insertConference, List.map_cons, List.mem_cons]
    tauto

/-- Re-folding the values of an invariant dictionary onto a prefix only
appends them back: every value meets a fresh key. -/
theorem foldl_insertConference_rebuild :
    ∀ (l pre : List (String × Conference)), ConfInv (pre ++ l) →
      List.foldl insertConference pre (l.map Prod.snd) = pre ++ l := by
  intro l
  induction l with
  | nil => intro pre _; simp
  | cons p t ih =>
    intro pre hinv
    cases p with
    | mk k v =>
      have hkey : k = confKey v := hinv.2 (k, v) (by simp)
      have hnot : lookupKey pre (confKey v) = none := by
        rw [lookupKey_eq_none]
        intro q hq hq1
        have hnd := hinv.1
        rw [List.map_append] at hnd
        have hdisj := (List.nodup_append.mp hnd).2.2
        exact hdisj (List.mem_map.mpr ⟨q, hq, hq1.trans hkey.symm⟩)
          (by simp)
      rw [List.map_cons, List.foldl_cons, insertConference_eq_append hnot, ← hkey]
      have hassoc : (pre ++ [(k, v)]) ++ t = pre ++ (k, v) :: t := by simp
      rw [ih (pre ++ [(k, v)]) (by rw [hassoc]; exact hinv), hassoc]

/-- Under the invariant, mapping `confKey` over the stored records recovers
the stored keys. -/
theorem map_confKey_of_inv {acc : List (String × Conference)} (h : ConfInv acc) :
    (acc.map Prod.snd).map confKey = acc.map Prod.fst := by
  rw [List.map_map]
  induction acc with
  | nil => rfl
  | cons p t ih =>
    rw [List.map_cons, List.map_cons]
    have hp := h.2 p (by simp)
    refine congrArg₂ List.cons hp.symm ?_
    exact ih ⟨(List.nodup_cons.mp (by simpa using h.1)).2,
      fun q hq => h.2 q (List.mem_cons_of_mem p hq)⟩

/-- `insertArticle` skips an article whose lowercased title is empty. -/
theorem insertArticle_eq_skip {acc : List (String × Article)} {a : Article}
    (ht : lowerStr a.title = "") : insertArticle acc a = acc := by
  simp [insertArticle, ht]

/-- `insertArticle` on a fresh non-empty key appends the pair. -/
theorem insertArticle_eq_append {acc : List (String × Article)} {a : Article}
    (ht : lowerStr a.title ≠ "")
    (hl : lookupKey acc (lowerStr a.title) = none) :
    insertArticle acc a = acc ++ [(lowerStr a.title, a)] := by
  simp [insertArticle, ht, hl]

/-- `insertArticle` on an existing key overwrites in place. -/
theorem insertArticle_eq_set {acc : List (String × Article)} {a e : Article}
    (ht : lowerStr a.title ≠ "")
    (hl : lookupKey acc (lowerStr a.title) = some e) :
    insertArticle acc a =
      if artIsMoreComplete a e then setKey acc (lowerStr a.title) a
      else setKey acc (lowerStr a.title)
        { e with topics := unionTopics e.topics a.topics } := by
  simp [insertArticle, ht, hl]

/-- The loop body preserves the article dictionary invariant. -/
theorem insertArticle_inv {acc : List (String × Article)} (h : ArtInv acc)
    (a : Article) : ArtInv (insertArticle acc a) := by
  by_cases ht : lowerStr a.title = ""
  · rw [insertArticle_eq_skip ht]; exact h
  · cases hl : lookupKey acc (lowerStr a.title) with
    | none =>
      rw [insertArticle_eq_append ht hl]
      constructor
      · rw [List.map_append, List.map_cons, List.map_nil]
        refine List.Nodup.append h.1 (List.nodup_singleton _) ?_
        intro x hx hb
        simp only [List.mem_singleton] at hb
        subst hb
        obtain ⟨p, hp, hpk⟩ := List.mem_map.mp hx
        exact ((lookupKey_eq_none acc (lowerStr a.title)).mp hl) p hp hpk
      · intro p hp
        rcases List.mem_append.mp hp with h1 | h2
        · exact h.2 p h1
        · simp only [List.mem_singleton] at h2
          subst h2
          exact ⟨rfl, ht⟩
    | some e =>
      have hkey := h.2 _ (lookupKey_some hl)
      rw [insertArticle_eq_set ht hl]
      have hset : ∀ v : Article, lowerStr v.title = lowerStr a.title →
          ArtInv (setKey acc (lowerStr a.title) v) := by
        intro v hv
        constructor
        · rw [setKey_map_fst]; exact h.1
        · intro p hp
          obtain ⟨q, hq, hfq⟩ := List.mem_map.mp hp
          by_cases hq1 : q.1 = lowerStr a.title
          · rw [if_pos hq1] at hfq
            rw [← hfq]
            exact ⟨hv.symm, ht⟩
          · rw [if_neg hq1] at hfq
            rw [← hfq]
            exact h.2 q hq
      split_ifs with hmc
      · exact hset a rfl
      · exact hset _ hkey.1.symm

/-- The article dictionary built by the fold satisfies the invariant. -/
theorem foldl_insertArticle_inv (l : List Article) :
    ∀ acc, ArtInv acc → ArtInv (l.foldl insertArticle acc) := by
  induction l with
  | nil => exact fun _ h => h
  | cons a t ih => exact fun acc h => ih _ (insertArticle_inv h a)

/-- Re-folding the values of an invariant article dictionary onto a prefix
only appends them back. -/
theorem foldl_insertArticle_rebuild :
    ∀ (l pre : List (String × Article)), ArtInv (pre ++ l) →
      List.foldl insertArticle pre (l.map Prod.snd) = pre ++ l := by
  intro l
  induction l with
  | nil => intro pre _; simp
  | cons p t ih =>
    intro pre hinv
    cases p with
    | mk k v =>
      have hkv := hinv.2 (k, v) (by simp)
      have hkey : k = lowerStr v.title := hkv.1
      have htne : lowerStr v.title ≠ "" := hkey ▸ hkv.2
      have hnot : lookupKey pre (lowerStr v.title) = none := by
        rw [lookupKey_eq_none]
        intro q hq hq1
        have hnd := hinv.1
        rw [List.map_append] at hnd
        have hdisj := (List.nodup_append.mp hnd).2.2
        exact hdisj (List.mem_map.mpr ⟨q, hq, hq1.trans hkey.symm⟩)
          (by simp)
      rw [List.map_cons, List.foldl_cons, insertArticle_eq_append htne hnot, ← hkey]
      have hassoc : (pre ++ [(k, v)]) ++ t = pre ++ (k, v) :: t := by simp
      rw [ih (pre ++ [(k, v)]) (by rw [hassoc]; exact hinv), hassoc]

/-! ## Two-record merge computations -/

/-- Merging two conferences with the same key keeps exactly one record:
the challenger when strictly more complete (its topics replacing the stored
ones), else the first record with the union of both topic lists. -/
theorem removeDuplicatesConf_pair_same {c1 c2 : Conference}
    (h : confKey c1 = confKey c2) :
    removeDuplicatesConf [c1, c2] =
      if confIsMoreComplete c2 c1 then [c2]
      else [{ c1 with topics := unionTopics c1.topics c2.topics }] := by
  have h1 : lookupKey ([] : List (String × Conference)) (confKey c1) = none := rfl
  unfold removeDuplicatesConf
  rw [List.foldl_cons, List.foldl_cons, List.foldl_nil,
    insertConference_eq_append h1, List.nil_append]
  have h2 : lookupKey [(confKey c1, c1)] (confKey c2) = some c1 := by
    simp [lookupKey, List.find?, h]
  rw [insertConference_eq_set h2]
  split_ifs with hm
  · simp [setKey, h]
  · simp [setKey, h]

/-- Merging two conferences with different keys keeps both, in order. -/
theorem removeDuplicatesConf_pair_diff {c1 c2 : Conference}
    (h : confKey c1 ≠ confKey c2) :
    removeDuplicatesConf [c1, c2] = [c1, c2] := by
  have h1 : lookupKey ([] : List (String × Conference)) (confKey c1) = none := rfl
  unfold removeDuplicatesConf
  rw [List.foldl_cons, List.foldl_cons, List.foldl_nil,
    insertConference_eq_append h1, List.nil_append]
  have h2 : lookupKey [(confKey c1, c1)] (confKey c2) = none := by
    simp [lookupKey, List.find?, h]
  rw [insertConference_eq_append h2]
  simp

/-- Merging two articles with the same non-empty key keeps exactly one. -/
theorem removeDuplicatesArt_pair_same {a1 a2 : Article}
    (ht1 : lowerStr a1.title ≠ "")
    (h : lowerStr a1.title = lowerStr a2.title) :
    removeDuplicatesArt [a1, a2] =
      if artIsMoreComplete a2 a1 then [a2]
      else [{ a1 with topics := unionTopics a1.topics a2.topics }] := by
  have ht2 : lowerStr a2.title ≠ "" := h ▸ ht1
  have h1 : lookupKey ([] : List (String × Article)) (lowerStr a1.title) = none := rfl
  unfold removeDuplicatesArt
  rw [List.foldl_cons, List.foldl_cons, List.foldl_nil,
    insertArticle_eq_append ht1 h1, List.nil_append]
  have h2 : lookupKey [(lowerStr a1.title, a1)] (lowerStr a2.title) = some a1 := by
    simp [lookupKey, List.find?, h]
  rw [insertArticle_eq_set ht2 h2]
  split_ifs with hm
  · simp [setKey, h]
  · simp [setKey, h]

/-- Merging two articles with different non-empty keys keeps both. -/
theorem removeDuplicatesArt_pair_diff {a1 a2 : Article}
    (ht1 : lowerStr a1.title ≠ "") (ht2 : lowerStr a2.title ≠ "")
    (h : lowerStr a1.title ≠ lowerStr a2.title) :
    removeDuplicatesArt [a1, a2] = [a1, a2] := by
  have h1 : lookupKey ([] : List (String × Article)) (lowerStr a1.title) = none := rfl
  unfold removeDuplicatesArt
  rw [List.foldl_cons, List.foldl_cons, List.foldl_nil,
    insertArticle_eq_append ht1 h1, List.nil_append]
  have h2 : lookupKey [(lowerStr a1.title, a1)] (lowerStr a2.title) = none := by
    simp [lookupKey, List.find?, h]
  rw [insertArticle_eq_append ht2 h2]
  simp

/-- C7: both `_remove_duplicates` methods are idempotent — their output has
pairwise-distinct keys (and, for articles, non-empty lowercased titles), so
a second pass only re-appends every record unchanged. -/
theorem merge_idempotent :
    (∀ R : List Conference,
        removeDuplicatesConf (removeDuplicatesConf R) = removeDuplicatesConf R)
      ∧ (∀ R : List Article,
        removeDuplicatesArt (removeDuplicatesArt R) = removeDuplicatesArt R) := by
  constructor
  · intro R
    have hinv : ConfInv (R.foldl insertConference []) :=
      foldl_insertConference_inv R [] ⟨List.nodup_nil, by simp⟩
    have hre := foldl_insertConference_rebuild (R.foldl insertConference []) []
      (by simpa using hinv)
    calc removeDuplicatesConf (removeDuplicatesConf R)
        = (List.foldl insertConference []
            ((R.foldl insertConference []).map Prod.snd)).map Prod.snd := rfl
      _ = ([] ++ R.foldl insertConference []).map Prod.snd := by rw [hre]
      _ = removeDuplicatesConf R := by rw [List.nil_append]; rfl
  · intro R
    have hinv : ArtInv (R.foldl insertArticle []) :=
      foldl_insertArticle_inv R [] ⟨List.nodup_nil, by simp⟩
    have hre := foldl_insertArticle_rebuild (R.foldl insertArticle []) []
      (by simpa using hinv)
    calc removeDuplicatesArt (removeDuplicatesArt R)
        = (List.foldl insertArticle []
            ((R.foldl insertArticle []).map Prod.snd)).map Prod.snd := rfl
      _ = ([] ++ R.foldl insertArticle []).map Prod.snd := by rw [hre]
      _ = removeDuplicatesArt R := by rw [List.nil_append]; rfl

/-- C1 counterexample: `confTopicsB` shares `confTopicsA`'s identity key
and is strictly more complete, so it replaces `confTopicsA` outright — the
topic `"A"` is dropped instead of being unioned into the retained record,
while the claim requires the retained topic set to be the union in all
cases. -/
theorem merge_union_counterexample :
    removeDuplicatesConf [confTopicsA, confTopicsB] = [confTopicsB]
      ∧ "A" ∈ confTopicsA.topics
      ∧ "A" ∉ confTopicsB.topics := by
  refine ⟨rfl, by decide, by decide⟩

/-- C1 (amended): merge keeps exactly one record per identity key
(output keys are the distinct input keys); when the incoming record is not
strictly more complete the retained record keeps the representative's
fields with the union of both topic lists, but when it is strictly more
complete it replaces the representative wholesale and the previously
accumulated topics are dropped. -/
theorem merge_one_per_key_union_amended :
    (∀ R : List Conference,
        ((removeDuplicatesConf R).map confKey).Nodup
          ∧ ∀ k, (k ∈ (removeDuplicatesConf R).map confKey ↔ k ∈ R.map confKey))
      ∧ (∀ c1 c2 : Conference, confKey c1 = confKey c2 →
          confIsMoreComplete c2 c1 = true → removeDuplicatesConf [c1, c2] = [c2])
      ∧ (∀ c1 c2 : Conference, confKey c1 = confKey c2 →
          confIsMoreComplete c2 c1 = false →
          removeDuplicatesConf [c1, c2] =
            [{ c1 with topics := unionTopics c1.topics c2.topics }]) := by
  refine ⟨?_, ?_, ?_⟩
  · intro R
    have hinv : ConfInv (R.foldl insertConference []) :=
      foldl_insertConference_inv R [] ⟨List.nodup_nil, by simp⟩
    have hmap : (removeDuplicatesConf R).map confKey
        = (R.foldl insertConference []).map Prod.fst := map_confKey_of_inv hinv
    constructor
    · rw [hmap]; exact hinv.1
    · intro k
      rw [hmap, fst_mem_foldl_insertConference]
      simp
  · intro c1 c2 h hm
    rw [removeDuplicatesConf_pair_same h, if_pos hm]
  · intro c1 c2 h hm
    rw [removeDuplicatesConf_pair_same h]
    simp [hm]

/-- C1 witness: the two concrete records of the counterexample, merged in
both orders — replacement drops topic `"A"`, non-replacement unions. -/
theorem merge_one_per_key_union_amended_witness :
    removeDuplicatesConf [confTopicsA, confTopicsB] = [confTopicsB]
      ∧ removeDuplicatesConf [confTopicsB, confTopicsA]
          = [{ confTopicsB with
                topics := unionTopics confTopicsB.topics confTopicsA.topics }] :=
  ⟨merge_one_per_key_union_amended.2.1 confTopicsA confTopicsB rfl (by decide),
   merge_one_per_key_union_amended.2.2 confTopicsB confTopicsA rfl (by decide)⟩

/-- C2 counterexample: two conferences whose names differ only in case are
kept as two records (the conference key is not case-normalized), and two
articles with equal titles but different publication dates are merged into
one (the article key ignores the date) — both against the claimed key
law. -/
theorem identity_key_counterexample :
    lowerStr confCaseA.name = lowerStr confCaseB.name
      ∧ confCaseA.start_date = confCaseB.start_date
      ∧ (removeDuplicatesConf [confCaseA, confCaseB]).length = 2
      ∧ artDateA.title = artDateB.title
      ∧ artDateA.publication_date ≠ artDateB.publication_date
      ∧ (removeDuplicatesArt [artDateA, artDateB]).length = 1 := by
  refine ⟨by decide, rfl, by decide, rfl, by decide, by decide⟩

/-- C2 (amended): two conference records fall into the same duplicate group
iff their raw (case-sensitive) `name_startdate` keys coincide, the absent
date rendering as the string `"None"`; two article records with non-empty
titles fall into the same group iff their case-normalized titles coincide,
the date playing no role. -/
theorem identity_key_grouping_amended :
    (∀ c1 c2 : Conference,
        ((removeDuplicatesConf [c1, c2]).length = 1 ↔ confKey c1 = confKey c2))
      ∧ (∀ a1 a2 : Article, lowerStr a1.title ≠ "" → lowerStr a2.title ≠ "" →
          ((removeDuplicatesArt [a1, a2]).length = 1 ↔
            lowerStr a1.title = lowerStr a2.title)) := by
  constructor
  · intro c1 c2
    by_cases h : confKey c1 = confKey c2
    · rw [removeDuplicatesConf_pair_same h]
      exact ⟨fun _ => h, fun _ => by split_ifs <;> rfl⟩
    · rw [removeDuplicatesConf_pair_diff h]
      simp [h]
  · intro a1 a2 ht1 ht2
    by_cases h : lowerStr a1.title = lowerStr a2.title
    · rw [removeDuplicatesArt_pair_same ht1 h]
      exact ⟨fun _ => h, fun _ => by split_ifs <;> rfl⟩
    · rw [removeDuplicatesArt_pair_diff ht1 ht2 h]
      simp [h]

/-- C2 witness: the two same-title, different-date articles are one group. -/
theorem identity_key_grouping_amended_witness :
    (removeDuplicatesArt [artDateA, artDateB]).length = 1 :=
  (identity_key_grouping_amended.2 artDateA artDateB (by decide) (by decide)).mpr rfl

/-- C6 counterexample: `confEmptyDeadline` carries an empty-string deadline
that the claimed non-null-non-empty score would not count — the two
records tie under that score — yet the source's bare `is not None` count
ranks it strictly more complete and it replaces `confNoDeadline` in a
merge. -/
theorem completeness_empty_string_counterexample :
    confIsMoreComplete confEmptyDeadline confNoDeadline = true
      ∧ specCompletenessConf confEmptyDeadline = specCompletenessConf confNoDeadline
      ∧ removeDuplicatesConf [confNoDeadline, confEmptyDeadline]
          = [confEmptyDeadline] := by
  refine ⟨rfl, rfl, rfl⟩

/-- C6 (amended): the article completeness score counts non-null,
non-empty values (an empty-string attribute adds nothing) and a present
non-empty summary unconditionally wins, so a summaried article survives a
same-key merge in either order; the conference score, however, counts
merely non-null values — an empty string there adds one. -/
theorem completeness_scoring_amended :
    (∀ a1 a2 : Article, lowerStr a1.title ≠ "" →
        lowerStr a1.title = lowerStr a2.title →
        hasSummary a1 = true → hasSummary a2 = false →
        removeDuplicatesArt [a2, a1] = [a1]
          ∧ removeDuplicatesArt [a1, a2]
              = [{ a1 with topics := unionTopics a1.topics a2.topics }])
      ∧ (∀ c : Conference,
          confCompleteness { c with submission_deadline := some "" }
            = confCompleteness { c with submission_deadline := none } + 1)
      ∧ (∀ a : Article,
          artCompleteness { a with publication := some "" }
            = artCompleteness { a with publication := none }) := by
  refine ⟨?_, ?_, ?_⟩
  · intro a1 a2 ht1 hk hs1 hs2
    have ht2 : lowerStr a2.title ≠ "" := hk ▸ ht1
    have hm12 : artIsMoreComplete a1 a2 = true := by
      simp [artIsMoreComplete, hs1, hs2]
    have hm21 : artIsMoreComplete a2 a1 = false := by
      simp [artIsMoreComplete, hs1, hs2]
    constructor
    · rw [removeDuplicatesArt_pair_same ht2 hk.symm, if_pos hm12]
    · rw [removeDuplicatesArt_pair_same ht1 hk]
      simp [hm21]
  · intro c
    simp [confCompleteness]
  · intro a
    simp [artCompleteness, optStrCount, strCount]

/-- C6 witness: the summaried article survives against a same-title record
with strictly more populated fields, in either merge order. -/
theorem completeness_scoring_amended_witness :
    removeDuplicatesArt [artNoSummary, artWithSummary] = [artWithSummary]
      ∧ removeDuplicatesArt [artWithSummary, artNoSummary]
          = [{ artWithSummary with
                topics := unionTopics artWithSummary.topics artNoSummary.topics }] :=
  completeness_scoring_amended.1 artWithSummary artNoSummary (by decide) rfl
    (by decide) (by decide)

end CanAgent
